import Mathlib

/-!
# python-runtime-cnb: buildpack.yml version parsing, version resolution and layer reuse

Shallow embedding of `buildpack_yml_parser.go` (`BuildpackYMLParser.ParseVersion`)
together with the two library calls it makes (`os.Open`, `yaml.NewDecoder(..).Decode`),
followed by the resolution / cache-decision / reporting components.

Go's `(value, error)` results are pairs `α × Option GoError`, `none` being the nil error.
-/

namespace PythonRuntime

/-! ## Errors and the file system -/

/-- Error values that can reach `ParseVersion`. -/
inductive GoError
  /-- `*os.PathError` wrapping ENOENT; the only error for which `os.IsNotExist` holds. -/
  | notExist (path : String)
  /-- `*os.PathError` for any other failure of `os.Open` (permission denied, ...). -/
  | pathError (path : String) (msg : String)
  /-- `io.EOF`, returned by the YAML decoder when the input holds no document. -/
  | eof
  /-- A YAML scanner / parser / reader error. -/
  | yamlError (msg : String)
  /-- `*yaml.TypeError`: the document was read but some nodes did not fit the target. -/
  | typeError (errors : List String)
  deriving DecidableEq, Repr

/-- `os.IsNotExist(err)`; false on the nil error. -/
def IsNotExist : Option GoError → Bool
  | some (GoError.notExist _) => true
  | _ => false

/-- A parsed YAML node, anchors and aliases already expanded. -/
inductive Node
  /-- A scalar resolving to null (`~`, `null`, or an empty value). -/
  | null
  /-- A scalar resolving to a non-null value, other than the two below, carrying its text. -/
  | scalar (value : String)
  /-- The plain scalar `<<`: as a mapping key it asks for a merge, as a value its text is
  `<<`. A quoted `"<<"` is an ordinary `scalar`. -/
  | merge
  /-- A scalar tagged `!!binary`, with the result of decoding its base64 text (`none` when the
  text is no valid base64). -/
  | binary (decoded : Option String)
  | sequence (items : List Node)
  | mapping (entries : List (Node × Node))

/-- What the YAML parser finds in an opened file. -/
inductive FileContent
  /-- The stream ends before any document starts (for instance a zero-length file). -/
  | noDocument
  /-- The stream cannot be read or is not well-formed YAML. -/
  | malformed (msg : String)
  /-- The first document of the stream. -/
  | document (root : Node)

/-- The state of one path of the file system. -/
inductive PathState
  | absent
  | unopenable (msg : String)
  | present (content : FileContent)

abbrev FileSystem := String → PathState

/-- `os.Open(path)`: the file handle and the error. -/
def osOpen (fs : FileSystem) (path : String) : Option FileContent × Option GoError :=
  match fs path with
  | PathState.absent => (none, some (GoError.notExist path))
  | PathState.unopenable msg => (none, some (GoError.pathError path msg))
  | PathState.present content => (some content, none)

/-! ## The decode target and the YAML decoder -/

/-- The inner anonymous struct, field `Version` tagged `yaml:"version"`. -/
structure PythonSection where
  Version : String := ""
  deriving DecidableEq, Repr

/-- The local variable `buildpack`, field `Python` tagged `yaml:"python"`. -/
structure Buildpack where
  Python : PythonSection := {}
  deriving DecidableEq, Repr

/-- The state of one run of the decoder: the target as filled so far, the type errors
collected so far (decoding goes on after one), and the failure that aborted the run, if any. -/
structure Decoding (α : Type) where
  out : α
  terrors : List String
  failure : Option String

/-- A run that has recorded no type error and has not been aborted. -/
def Decoding.clean {α : Type} (d : Decoding α) : Prop :=
  d.terrors = [] ∧ d.failure = none

/-- The result of decoding one node into a string-kinded value. -/
inductive StringResult
  | ok (value : String)
  /-- The node does not fit a string: a type error is recorded and decoding goes on. -/
  | terror (msg : String)
  /-- Decoding aborts. -/
  | fatal (msg : String)

/-- Decoding a node into a string-kinded value (a mapping key or the `Version` field):
a null scalar gives the zero value, a `!!binary` scalar its decoded bytes, any other scalar its
text, a collection a type error. -/
def unmarshalString : Node → StringResult
  | Node.null => StringResult.ok ""
  | Node.scalar v => StringResult.ok v
  | Node.merge => StringResult.ok "<<"
  | Node.binary (some decoded) => StringResult.ok decoded
  | Node.binary none => StringResult.fatal "!!binary value contains invalid base64 data"
  | Node.sequence _ => StringResult.terror "cannot unmarshal !!seq into string"
  | Node.mapping _ => StringResult.terror "cannot unmarshal !!map into string"

/-- `isMerge`: whether a key node asks for a merge. -/
def isMerge : Node → Bool
  | Node.merge => true
  | _ => false

/-- The message of a merge whose value is no mapping and no sequence of mappings. -/
def wantMap : String := "map merge requires map or sequence of maps as the value"

mutual
/-- The loop of the decoder over the key/value pairs of a mapping, target `PythonSection`:
a merge key decodes its value into the same target, unknown keys are skipped (the decoder is
not strict), a later `version` overwrites an earlier one, and type errors are collected while
decoding goes on. -/
def mappingStructPython :
    List (Node × Node) → Decoding PythonSection → Decoding PythonSection
  | [], d => d
  | (k, v) :: rest, d =>
    match d.failure with
    | some _ => d
    | none =>
      if isMerge k then mappingStructPython rest (mergePython v d)
      else
        match unmarshalString k with
        | StringResult.fatal msg => { d with failure := some msg }
        | StringResult.terror e => mappingStructPython rest { d with terrors := d.terrors ++ [e] }
        | StringResult.ok name =>
          if name = "version" then
            match unmarshalString v with
            | StringResult.ok s =>
              mappingStructPython rest { d with out := { d.out with Version := s } }
            | StringResult.terror e =>
              mappingStructPython rest { d with terrors := d.terrors ++ [e] }
            | StringResult.fatal msg => { d with failure := some msg }
          else mappingStructPython rest d
/-- The decoder's `merge` on the value of a merge key, target `PythonSection`: a mapping is
decoded into the target, a sequence of mappings is decoded from its last item to its first,
anything else aborts. -/
def mergePython : Node → Decoding PythonSection → Decoding PythonSection
  | Node.mapping entries, d => mappingStructPython entries d
  | Node.sequence items, d => mergeSeqPython items d
  | _, d => { d with failure := some wantMap }
/-- The items of a merged sequence, the last one first. -/
def mergeSeqPython : List Node → Decoding PythonSection → Decoding PythonSection
  | [], d => d
  | n :: rest, d =>
    let r := mergeSeqPython rest d
    match r.failure with
    | some _ => r
    | none =>
      match n with
      | Node.mapping entries => mappingStructPython entries r
      | _ => { r with failure := some wantMap }
end

/-- Decoding a node into the `Python` field. -/
def unmarshalPython (n : Node) (d : Decoding PythonSection) : Decoding PythonSection :=
  match n with
  | Node.null => { d with out := {} }
  | Node.scalar _ => { d with terrors := d.terrors ++ ["cannot unmarshal scalar into struct"] }
  | Node.merge => { d with terrors := d.terrors ++ ["cannot unmarshal scalar into struct"] }
  | Node.binary (some _) =>
    { d with terrors := d.terrors ++ ["cannot unmarshal !!binary into struct"] }
  | Node.binary none => { d with failure := some "!!binary value contains invalid base64 data" }
  | Node.sequence _ => { d with terrors := d.terrors ++ ["cannot unmarshal !!seq into struct"] }
  | Node.mapping entries => mappingStructPython entries d

/-- The `Python` field of a decoding state, as a state of its own. -/
def Decoding.python (d : Decoding Buildpack) : Decoding PythonSection :=
  { out := d.out.Python, terrors := d.terrors, failure := d.failure }

/-- The state of the whole target after its `Python` field has been decoded into. -/
def Decoding.withPython (d : Decoding Buildpack) (r : Decoding PythonSection) :
    Decoding Buildpack :=
  { out := { d.out with Python := r.out }, terrors := r.terrors, failure := r.failure }

mutual
/-- The loop of the decoder over the key/value pairs of the root mapping, target `Buildpack`. -/
def mappingStructBuildpack :
    List (Node × Node) → Decoding Buildpack → Decoding Buildpack
  | [], d => d
  | (k, v) :: rest, d =>
    match d.failure with
    | some _ => d
    | none =>
      if isMerge k then mappingStructBuildpack rest (mergeBuildpack v d)
      else
        match unmarshalString k with
        | StringResult.fatal msg => { d with failure := some msg }
        | StringResult.terror e =>
          mappingStructBuildpack rest { d with terrors := d.terrors ++ [e] }
        | StringResult.ok name =>
          if name = "python" then
            mappingStructBuildpack rest (d.withPython (unmarshalPython v d.python))
          else mappingStructBuildpack rest d
/-- The decoder's `merge` on the value of a merge key, target `Buildpack`. -/
def mergeBuildpack : Node → Decoding Buildpack → Decoding Buildpack
  | Node.mapping entries, d => mappingStructBuildpack entries d
  | Node.sequence items, d => mergeSeqBuildpack items d
  | _, d => { d with failure := some wantMap }
/-- The items of a merged sequence, the last one first. -/
def mergeSeqBuildpack : List Node → Decoding Buildpack → Decoding Buildpack
  | [], d => d
  | n :: rest, d =>
    let r := mergeSeqBuildpack rest d
    match r.failure with
    | some _ => r
    | none =>
      match n with
      | Node.mapping entries => mappingStructBuildpack entries r
      | _ => { r with failure := some wantMap }
end

/-- Decoding the root node of a document into `buildpack`. -/
def unmarshalBuildpack (n : Node) (d : Decoding Buildpack) : Decoding Buildpack :=
  match n with
  | Node.null => { d with out := {} }
  | Node.scalar _ => { d with terrors := d.terrors ++ ["cannot unmarshal scalar into struct"] }
  | Node.merge => { d with terrors := d.terrors ++ ["cannot unmarshal scalar into struct"] }
  | Node.binary (some _) =>
    { d with terrors := d.terrors ++ ["cannot unmarshal !!binary into struct"] }
  | Node.binary none => { d with failure := some "!!binary value contains invalid base64 data" }
  | Node.sequence _ => { d with terrors := d.terrors ++ ["cannot unmarshal !!seq into struct"] }
  | Node.mapping entries => mappingStructBuildpack entries d

/-- `yaml.NewDecoder(file).Decode(&buildpack)`: the (possibly partly filled) target and the
error. No document gives `io.EOF`; an aborted run gives its failure; type errors are reported
after the whole document has been walked, so the target may already hold values when the error
is non-nil. -/
def Decode (file : Option FileContent) (v : Buildpack) : Buildpack × Option GoError :=
  match file with
  | none => (v, some (GoError.yamlError "input error: invalid argument"))
  | some FileContent.noDocument => (v, some GoError.eof)
  | some (FileContent.malformed msg) => (v, some (GoError.yamlError msg))
  | some (FileContent.document root) =>
    let r := unmarshalBuildpack root { out := v, terrors := [], failure := none }
    match r.failure with
    | some msg => (r.out, some (GoError.yamlError msg))
    | none => if r.terrors = [] then (r.out, none) else (r.out, some (GoError.typeError r.terrors))

/-! ## `BuildpackYMLParser.ParseVersion` -/

/-- `func (p BuildpackYMLParser) ParseVersion(path string) (string, error)`. The deferred
`file.Close()` does not touch the results: its own error is dropped, also on the nil file of
the not-exist path. -/
def ParseVersion (fs : FileSystem) (path : String) : String × Option GoError :=
  let buildpack : Buildpack := {}
  let opened := osOpen fs path
  let file := opened.1
  let err := opened.2
  if err ≠ none ∧ IsNotExist err = false then
    ("", err)
  else
    if IsNotExist err = false then
      let decoded := Decode file buildpack
      if decoded.2 ≠ none then
        ("", decoded.2)
      else
        (decoded.1.Python.Version, none)
    else
      (buildpack.Python.Version, none)

/-! ## The document read by its field path -/

/-- Whether a key node is a field key that, read as a string, is `key`. -/
def keyIs (key : String) (k : Node) : Bool :=
  if isMerge k then false
  else
    match unmarshalString k with
    | StringResult.ok name => name == key
    | _ => false

/-- The value stored under `key` in a mapping node, if any (the first one). -/
def lookupField (key : String) : Node → Option Node
  | Node.mapping entries => (entries.find? (fun e => keyIs key e.1)).map (fun e => e.2)
  | _ => none

/-- The value of the last entry stored under `key` in a mapping node, if any. -/
def lookupFieldLast (key : String) : Node → Option Node
  | Node.mapping entries => (entries.reverse.find? (fun e => keyIs key e.1)).map (fun e => e.2)
  | _ => none

/-- How many entries of a mapping node are stored under `key`. -/
def fieldCount (key : String) : Node → Nat
  | Node.mapping entries => (entries.filter (fun e => keyIs key e.1)).length
  | _ => 0

/-- Whether a mapping node has a merge key. -/
def hasMergeKey : Node → Bool
  | Node.mapping entries => entries.any (fun e => isMerge e.1)
  | _ => false

/-- The string held by a scalar node; empty for a null. -/
def scalarText : Node → String
  | Node.scalar v => v
  | Node.merge => "<<"
  | Node.binary (some decoded) => decoded
  | _ => ""

/-- The version found under a `python` node, `dflt` standing for the value the target held
before: a null resets it, a mapping without `version` leaves it. -/
def versionUnder (dflt : String) : Node → String
  | Node.null => ""
  | Node.mapping entries =>
    match entries.find? (fun e => keyIs "version" e.1) with
    | none => dflt
    | some e => scalarText e.2
  | _ => dflt

/-- The string at `python.version` of a document, read off the document by its field path:
empty when there is no `python` entry or no `version` entry under it. -/
def documentPythonVersion (doc : Node) : String :=
  match lookupField "python" doc with
  | none => ""
  | some py =>
    match lookupField "version" py with
    | none => ""
    | some v => scalarText v

/-- The string at `python.version` of a document read with one of the four ways of settling
repeated keys: the first or the last `python` entry, and under it the first or the last
`version` entry. -/
def documentPythonVersionBy (lastPython lastVersion : Bool) (doc : Node) : String :=
  match (if lastPython then lookupFieldLast "python" doc else lookupField "python" doc) with
  | none => ""
  | some py =>
    match (if lastVersion then lookupFieldLast "version" py else lookupField "version" py) with
    | none => ""
    | some v => scalarText v

/-- The field the parser reads, if the document has it: the node under `python` and then
`version`. -/
def pythonVersionField (doc : Node) : Option Node :=
  (lookupField "python" doc).bind (lookupField "version")

/-- The document has a single `python` field with a single `version` field at most, and no
merge key next to either. -/
def singleFields (doc : Node) : Bool :=
  decide (fieldCount "python" doc ≤ 1) && !hasMergeKey doc &&
    match lookupField "python" doc with
    | none => true
    | some py => decide (fieldCount "version" py ≤ 1) && !hasMergeKey py

/-- A `buildpack.yml` whose `python` and `version` keys are repeated. -/
def repeatedKeysDocument : Node :=
  Node.mapping
    [(Node.scalar "python",
       Node.mapping [(Node.scalar "version", Node.scalar "3.7.1"),
                     (Node.scalar "version", Node.scalar "3.8.2")]),
     (Node.scalar "python",
       Node.mapping [(Node.scalar "version", Node.scalar "3.9.3"),
                     (Node.scalar "version", Node.scalar "3.9.4")]),
     (Node.scalar "python", Node.mapping [])]

/-- A `buildpack.yml` whose `python.version` is followed by a merge key that carries another
`python.version`. -/
def mergedDocument : Node :=
  Node.mapping
    [(Node.scalar "python", Node.mapping [(Node.scalar "version", Node.scalar "3.8.2")]),
     (Node.merge,
       Node.mapping
         [(Node.scalar "python", Node.mapping [(Node.scalar "version", Node.scalar "3.7.1")])])]

/-- A `buildpack.yml` with other keys around the `python.version` field. -/
def mixedDocument : Node :=
  Node.mapping
    [(Node.scalar "nodejs", Node.mapping [(Node.scalar "version", Node.scalar "14.*")]),
     (Node.scalar "python",
       Node.mapping [(Node.scalar "optimize", Node.sequence [Node.scalar "2"]),
                     (Node.scalar "version", Node.scalar "3.8.*")]),
     (Node.scalar "cpython", Node.mapping [(Node.scalar "version", Node.scalar "3.9.1")])]

/-! ## Version sources and `PlanEntryResolver` -/

/-- A ranked origin of a version constraint; an empty `requestedValue` expresses none. -/
structure VersionSource where
  name : String
  requestedValue : String
  deriving DecidableEq, Repr

/-- The effective request together with every candidate, in priority order. -/
structure ResolvedRequest where
  chosenSourceName : String
  chosenValue : String
  allCandidatesInPriorityOrder : List VersionSource
  deriving DecidableEq, Repr

/-- Modelled from the spec: the sentinel source name of the unconstrained result
(`plan_entry_resolver.go` is not among the sources); the spec only fixes its rendering. -/
def unconstrainedSourceName : String := ""

/-- Modelled from the spec: how a source name is shown to the user, the sentinel being
rendered as `<unknown>` (the log emitter is not among the sources). -/
def renderSourceName (name : String) : String :=
  if name = unconstrainedSourceName then "<unknown>" else name

/-- Modelled from the spec: the scan of `PlanEntryResolver.Resolve` (section 4.1), which walks
the sources in the given order and stops at the first one with a non-empty value. -/
def firstRequested : List VersionSource → Option VersionSource
  | [] => none
  | s :: rest => if s.requestedValue ≠ "" then some s else firstRequested rest

/-- Modelled from the spec: `PlanEntryResolver.Resolve` (section 4.1; `plan_entry_resolver.go`
is not among the sources). It never re-sorts, has no error result, and keeps the full
candidate list. -/
def Resolve (sources : List VersionSource) : ResolvedRequest :=
  match firstRequested sources with
  | some s =>
    { chosenSourceName := s.name, chosenValue := s.requestedValue,
      allCandidatesInPriorityOrder := sources }
  | none =>
    { chosenSourceName := unconstrainedSourceName, chosenValue := "",
      allCandidatesInPriorityOrder := sources }

/-! ## `LayerCacheDecision` -/

/-- The catalog entry chosen for a request. -/
structure MatchedDependency where
  version : String
  checksum : String
  locator : String
  deriving DecidableEq, Repr

/-- The record persisted with the layer across build invocations. -/
structure LayerMetadata where
  version : String
  checksum : String
  builtAt : Nat
  deriving DecidableEq, Repr

inductive CacheDecision
  | Reuse
  | Rebuild
  deriving DecidableEq, Repr

/-- Modelled from the spec: `LayerCacheDecision.Decide` (section 4.3; the build code is not
among the sources). -/
def Decide (matched : MatchedDependency) (previous : Option LayerMetadata) : CacheDecision :=
  match previous with
  | none => CacheDecision.Rebuild
  | some p =>
    if p.version = matched.version then
      if p.checksum = matched.checksum then CacheDecision.Reuse else CacheDecision.Rebuild
    else CacheDecision.Rebuild

/-! ## The build orchestrator -/

/-- What one build invocation is given by its collaborators. -/
structure Collaborators where
  /-- The results of the version source readers, in priority order. -/
  sources : List (Except GoError VersionSource)
  /-- `PlanRefinery.Match` against the catalog; `none` is `NoMatchingVersion`. -/
  refinery : ResolvedRequest → Option MatchedDependency
  /-- Whether installing the dependency succeeds. -/
  install : MatchedDependency → Bool
  /-- `Clock.Now()`. -/
  now : Nat

/-- The terminal states of a build invocation. -/
inductive BuildResult
  | ResolutionFailed (cause : GoError)
  | MatchFailed
  | InstallFailed
  | Done (decision : CacheDecision) (persisted : LayerMetadata)
  deriving DecidableEq, Repr

/-- Modelled from the spec: `Start → SourcesCollected` (section 4.4), reading the sources in
priority order and aborting at the first read failure. -/
def collectSources : List (Except GoError VersionSource) → Except GoError (List VersionSource)
  | [] => Except.ok []
  | Except.error e :: _ => Except.error e
  | Except.ok s :: rest =>
    match collectSources rest with
    | Except.ok ss => Except.ok (s :: ss)
    | Except.error e => Except.error e

/-- Modelled from the spec: `CacheChecked → Installed|Reused → Persisted` (section 4.4). On
reuse nothing is installed and the existing `builtAt` is kept; on rebuild the dependency is
installed and `builtAt` is stamped with the clock. -/
def installOrReuse (c : Collaborators) (matched : MatchedDependency)
    (previous : Option LayerMetadata) : BuildResult :=
  match Decide matched previous, previous with
  | CacheDecision.Reuse, some p =>
    BuildResult.Done CacheDecision.Reuse
      { version := matched.version, checksum := matched.checksum, builtAt := p.builtAt }
  | _, _ =>
    if c.install matched then
      BuildResult.Done CacheDecision.Rebuild
        { version := matched.version, checksum := matched.checksum, builtAt := c.now }
    else BuildResult.InstallFailed

/-- Modelled from the spec: the build orchestrator (section 4.4; `build.go` is not among the
sources): resolve, match against the catalog, compare with the previous metadata, install or
reuse, persist. -/
def Build (c : Collaborators) (previous : Option LayerMetadata) : BuildResult :=
  match collectSources c.sources with
  | Except.error e => BuildResult.ResolutionFailed e
  | Except.ok sources =>
    match c.refinery (Resolve sources) with
    | none => BuildResult.MatchFailed
    | some matched => installOrReuse c matched previous

/-- Modelled from the spec: the layer metadata in the store after a build; a failed build
persists nothing, so the previous metadata stays. -/
def persistedAfter (previous : Option LayerMetadata) : BuildResult → Option LayerMetadata
  | BuildResult.Done _ m => some m
  | _ => previous

/-- A build whose single source requests nothing and whose catalog offers `3.10.2`. -/
def defaultBuild (installs : Bool) (now : Nat) : Collaborators :=
  { sources := [Except.ok ⟨"", ""⟩],
    refinery := fun _ => some ⟨"3.10.2", "sha256:aa", "https://deps/3.10.2"⟩,
    install := fun _ => installs,
    now := now }

/-! ## The candidate report -/

/-- A run of `n` spaces. -/
def spaces (n : Nat) : String := String.mk (List.replicate n (Char.ofNat 32))

/-- Modelled from the spec: a name right-padded with spaces to `width`. -/
def padRight (s : String) (width : Nat) : String := s ++ spaces (width - s.length)

/-- Modelled from the spec: the width of the source-name column, the length of the longest
rendered source name. -/
def columnWidth : List VersionSource → Nat
  | [] => 0
  | s :: rest => max (renderSourceName s.name).length (columnWidth rest)

/-- A value in double quotes. -/
def quoted (value : String) : String := "\"" ++ value ++ "\""

/-- Modelled from the spec: one candidate line of the report (section 6). -/
def candidateLine (width : Nat) (s : VersionSource) : String :=
  padRight (renderSourceName s.name) width ++ " -> " ++ quoted s.requestedValue

/-- Modelled from the spec: the line naming the chosen source and the selected version. -/
def selectedLine (r : ResolvedRequest) (version : String) : String :=
  "Selected CPython version (using " ++ renderSourceName r.chosenSourceName ++ "): " ++ version

/-- Modelled from the spec: the diagnostic report (section 6; the log emitter is not among
the sources): one line per candidate, a blank line, the selected line. The indentation the
logger puts in front of each line is left out. -/
def candidateReport (r : ResolvedRequest) (version : String) : List String :=
  r.allCandidatesInPriorityOrder.map (candidateLine (columnWidth r.allCandidatesInPriorityOrder))
    ++ ["", selectedLine r version]

/-! ## Example documents -/

/-- A document whose `version` is decoded before a later key fails to decode: the decoder
has filled in `3.9.1` when it reports its type error, and `ParseVersion` returns the empty
string with that error. -/
def partlyDecodedDocument : Node :=
  Node.mapping
    [(Node.scalar "python", Node.mapping [(Node.scalar "version", Node.scalar "3.9.1")]),
     (Node.sequence [], Node.null)]

/-- The document `---\ncpython:\n  version: V` written by the layer reuse test. -/
def cpythonDocument (V : String) : Node :=
  Node.mapping [(Node.scalar "cpython", Node.mapping [(Node.scalar "version", Node.scalar V)])]

/-- The document `---\npython:\n  version: V`. -/
def pythonDocument (V : String) : Node :=
  Node.mapping [(Node.scalar "python", Node.mapping [(Node.scalar "version", Node.scalar V)])]

/-! ## `ParseVersion`: control flow -/

/-- The three cases of `ParseVersion`, by the state of the path. -/
theorem ParseVersion_cases (fs : FileSystem) (path : String) :
    (fs path = PathState.absent ∧ ParseVersion fs path = ("", none)) ∨
    (∃ msg, fs path = PathState.unopenable msg ∧
      ParseVersion fs path = ("", some (GoError.pathError path msg))) ∨
    (∃ content, fs path = PathState.present content ∧
      ParseVersion fs path =
        (if (Decode (some content) {}).2 ≠ none then ("", (Decode (some content) {}).2)
         else ((Decode (some content) {}).1.Python.Version, none))) := by
  cases h : fs path with
  | absent => left; simp [ParseVersion, osOpen, h, IsNotExist]
  | unopenable msg => right; left; exact ⟨msg, rfl, by simp [ParseVersion, osOpen, h, IsNotExist]⟩
  | present content =>
    right; right
    exact ⟨content, rfl, by simp [ParseVersion, osOpen, h, IsNotExist]⟩

/-- C1: at a path where opening fails with a not-exist error, `ParseVersion` returns the empty
string and the nil error. -/
theorem ParseVersion_missing_file (fs : FileSystem) (path : String)
    (h : IsNotExist (osOpen fs path).2 = true) :
    ParseVersion fs path = ("", none) := by
  unfold ParseVersion
  simp [h]

/-- The missing-file case at a concrete path of an empty file system. -/
theorem ParseVersion_missing_file_witness :
    IsNotExist (osOpen (fun _ => PathState.absent) "buildpack.yml").2 = true ∧
      ParseVersion (fun _ => PathState.absent) "buildpack.yml" = ("", none) :=
  ⟨rfl, ParseVersion_missing_file (fun _ => PathState.absent) "buildpack.yml" rfl⟩

/-- C2: `ParseVersion` returns a non-nil error exactly when opening fails with an error other
than not-exist, or the file opens and decoding fails; the error returned is the open error in
the first case and the decode error in the second. -/
theorem ParseVersion_error_iff (fs : FileSystem) (path : String) :
    ((ParseVersion fs path).2 ≠ none ↔
      ((∃ e, (osOpen fs path).2 = some e ∧ IsNotExist (some e) = false) ∨
        (∃ file e, osOpen fs path = (some file, none) ∧
          (Decode (some file) {}).2 = some e))) ∧
    (∀ e, (osOpen fs path).2 = some e → IsNotExist (some e) = false →
      ParseVersion fs path = ("", some e)) ∧
    (∀ file e, osOpen fs path = (some file, none) → (Decode (some file) {}).2 = some e →
      ParseVersion fs path = ("", some e)) := by
  refine ⟨?_, ?_, ?_⟩
  · cases h : fs path with
    | absent => simp [ParseVersion, osOpen, h, IsNotExist]
    | unopenable msg => simp [ParseVersion, osOpen, h, IsNotExist]
    | present content =>
      cases hd : (Decode (some content) {}).2 with
      | none => simp [ParseVersion, osOpen, h, IsNotExist, hd]
      | some e => simp [ParseVersion, osOpen, h, IsNotExist, hd]
  · intro e he hne
    unfold ParseVersion
    simp [he, hne]
  · intro file e ho hd
    unfold ParseVersion
    simp [ho, hd, IsNotExist]

/-- A path that cannot be opened for lack of permission: the open error comes back. -/
theorem ParseVersion_error_iff_witness :
    ParseVersion (fun _ => PathState.unopenable "permission denied") "buildpack.yml" =
      ("", some (GoError.pathError "buildpack.yml" "permission denied")) :=
  (ParseVersion_error_iff (fun _ => PathState.unopenable "permission denied")
    "buildpack.yml").2.1 (GoError.pathError "buildpack.yml" "permission denied") rfl rfl

/-- C9: whenever `ParseVersion` returns a non-nil error the version returned is empty, so a
non-empty version only ever comes with the nil error. -/
theorem ParseVersion_error_version_empty (fs : FileSystem) (path : String) :
    ((ParseVersion fs path).2 ≠ none → (ParseVersion fs path).1 = "") ∧
    ((ParseVersion fs path).1 ≠ "" → (ParseVersion fs path).2 = none) := by
  have key : (ParseVersion fs path).2 ≠ none → (ParseVersion fs path).1 = "" := by
    rcases ParseVersion_cases fs path with ⟨_, h⟩ | ⟨msg, _, h⟩ | ⟨content, _, h⟩
    · simp [h]
    · simp [h]
    · rw [h]
      split <;> simp
  refine ⟨key, ?_⟩
  intro hne
  by_contra hc
  exact hne (key hc)

/-- The decoder has populated the version, yet the version returned with the error is empty. -/
theorem ParseVersion_error_version_empty_witness :
    (Decode (some (FileContent.document partlyDecodedDocument)) {}).1.Python.Version = "3.9.1" ∧
    (ParseVersion (fun _ => PathState.present (FileContent.document partlyDecodedDocument))
      "buildpack.yml").2 ≠ none ∧
    (ParseVersion (fun _ => PathState.present (FileContent.document partlyDecodedDocument))
      "buildpack.yml").1 = "" :=
  ⟨by decide, by decide,
    (ParseVersion_error_version_empty
      (fun _ => PathState.present (FileContent.document partlyDecodedDocument))
      "buildpack.yml").1 (by decide)⟩

/-- C10: a file that exists and opens but holds no YAML document makes `ParseVersion` return
the empty string with the decoder's end-of-input error, unlike an absent file, for which the
error is nil. -/
theorem ParseVersion_empty_file (fs : FileSystem) (path : String)
    (h : fs path = PathState.present FileContent.noDocument) :
    ParseVersion fs path = ("", some GoError.eof) ∧
    ∀ fs2 : FileSystem, fs2 path = PathState.absent →
      ParseVersion fs2 path = ("", none) ∧ ParseVersion fs path ≠ ParseVersion fs2 path := by
  have h1 : ParseVersion fs path = ("", some GoError.eof) := by
    simp [ParseVersion, osOpen, h, IsNotExist, Decode]
  refine ⟨h1, ?_⟩
  intro fs2 h2
  have h3 : ParseVersion fs2 path = ("", none) := by
    simp [ParseVersion, osOpen, h2, IsNotExist]
  refine ⟨h3, ?_⟩
  rw [h1, h3]
  simp

/-- A zero-length `buildpack.yml` against an absent one. -/
theorem ParseVersion_empty_file_witness :
    ParseVersion (fun _ => PathState.present FileContent.noDocument) "buildpack.yml" =
      ("", some GoError.eof) ∧
    ParseVersion (fun _ => PathState.present FileContent.noDocument) "buildpack.yml" ≠
      ParseVersion (fun _ => PathState.absent) "buildpack.yml" :=
  ⟨(ParseVersion_empty_file (fun _ => PathState.present FileContent.noDocument)
      "buildpack.yml" rfl).1,
    ((ParseVersion_empty_file (fun _ => PathState.present FileContent.noDocument)
      "buildpack.yml" rfl).2 (fun _ => PathState.absent) rfl).2⟩

/-! ## `ParseVersion`: what is read from the document -/

/-- C3: on the document `---\ncpython:\n  version: 3.9.1` of the layer reuse test
`ParseVersion` returns the empty string with the nil error, not `3.9.1`: the decode target
is tagged `python`, and the same document under the key `python` does give `3.9.1`. -/
theorem ParseVersion_cpython_key_ignored :
    ParseVersion (fun _ => PathState.present (FileContent.document (cpythonDocument "3.9.1")))
        "buildpack.yml" = ("", none) ∧
    ParseVersion (fun _ => PathState.present (FileContent.document (pythonDocument "3.9.1")))
        "buildpack.yml" = ("3.9.1", none) := by
  constructor <;> decide

/-- A field key that decodes to `name` is recognised by `keyIs`. -/
theorem keyIs_of_ok {key name : String} {k : Node} (hm : isMerge k = false)
    (hk : unmarshalString k = StringResult.ok name) :
    keyIs key k = decide (name = key) := by
  simp only [keyIs, hm, hk]
  by_cases h : name = key <;> simp [h]

/-- A value decoded into a string is the string held by the scalar. -/
theorem unmarshalString_ok {v : Node} {s : String}
    (hv : unmarshalString v = StringResult.ok s) : s = scalarText v := by
  cases v with
  | null => simp_all [unmarshalString, scalarText]
  | scalar t => simp_all [unmarshalString, scalarText]
  | merge => simp_all [unmarshalString, scalarText]
  | binary b => cases b <;> simp_all [unmarshalString, scalarText]
  | sequence items => simp [unmarshalString] at hv
  | mapping entries => simp [unmarshalString] at hv

/-- A mapping without merge key has none among its entries. -/
theorem isMerge_of_hasMergeKey {entries : List (Node × Node)}
    (h : hasMergeKey (Node.mapping entries) = false) : ∀ e ∈ entries, isMerge e.1 = false := by
  intro e he
  simp only [hasMergeKey, List.any_eq_false] at h
  simpa using h e he

/-- At most one entry under `key`, the first being such an entry: none among the others. -/
theorem keyIs_rest_false {key : String} {k v : Node} {rest : List (Node × Node)}
    (hkey : keyIs key k = true)
    (hcount : (((k, v) :: rest).filter (fun e => keyIs key e.1)).length ≤ 1) :
    ∀ e ∈ rest, keyIs key e.1 = false := by
  have hlen : (rest.filter (fun e => keyIs key e.1)).length = 0 := by
    simp [List.filter_cons, hkey] at hcount
    simpa using hcount
  intro e he
  by_contra hc
  have hmem : e ∈ rest.filter (fun e => keyIs key e.1) := by
    simp [List.mem_filter, he]
    simpa using hc
  have := List.length_pos_of_mem hmem
  omega

/-- Entries without a merge key and without a `version` key leave the target untouched, and a
run that ends clean over them started clean. -/
theorem mappingStructPython_skip (entries : List (Node × Node)) :
    ∀ (d : Decoding PythonSection),
      (∀ e ∈ entries, isMerge e.1 = false) →
      (∀ e ∈ entries, keyIs "version" e.1 = false) →
      (mappingStructPython entries d).clean →
      d.clean ∧ (mappingStructPython entries d).out = d.out := by
  induction entries with
  | nil => intro d _ _ h; rw [mappingStructPython] at h ⊢; exact ⟨h, rfl⟩
  | cons kv rest ih =>
    intro d hmerge hall hclean
    obtain ⟨k, v⟩ := kv
    have hm : isMerge k = false := hmerge (k, v) (List.mem_cons_self _ _)
    have hk0 : keyIs "version" k = false := hall (k, v) (List.mem_cons_self _ _)
    have hmrest : ∀ e ∈ rest, isMerge e.1 = false :=
      fun e he => hmerge e (List.mem_cons_of_mem _ he)
    have hrest : ∀ e ∈ rest, keyIs "version" e.1 = false :=
      fun e he => hall e (List.mem_cons_of_mem _ he)
    rw [mappingStructPython] at hclean ⊢
    cases hf : d.failure with
    | some msg =>
      rw [hf] at hclean
      exact absurd hclean.2 (by simp [hf])
    | none =>
      rw [hf] at hclean
      simp only [hm, Bool.false_eq_true, if_false] at hclean ⊢
      cases hk : unmarshalString k with
      | fatal msg =>
        rw [hk] at hclean
        exact absurd hclean.2 (by simp)
      | terror e =>
        rw [hk] at hclean
        have := (ih _ hmrest hrest hclean).1
        exact absurd this.1 (by simp)
      | ok name =>
        rw [hk] at hclean
        simp only at hclean ⊢
        have hn : name ≠ "version" := by
          rw [keyIs_of_ok hm hk] at hk0
          simpa using hk0
        simp only [hn, if_false] at hclean ⊢
        exact ih d hmrest hrest hclean

/-- The inner loop, when it ends clean on a mapping with no merge key and at most one
`version` key, started clean and leaves in the target the string stored under that key. -/
theorem mappingStructPython_version (entries : List (Node × Node)) :
    ∀ (d : Decoding PythonSection),
      (∀ e ∈ entries, isMerge e.1 = false) →
      (entries.filter (fun e => keyIs "version" e.1)).length ≤ 1 →
      (mappingStructPython entries d).clean →
      d.clean ∧ (mappingStructPython entries d).out.Version =
        versionUnder d.out.Version (Node.mapping entries) := by
  induction entries with
  | nil => intro d _ _ h; rw [mappingStructPython] at h ⊢; exact ⟨h, rfl⟩
  | cons kv rest ih =>
    intro d hmerge hcount hclean
    obtain ⟨k, v⟩ := kv
    have hm : isMerge k = false := hmerge (k, v) (List.mem_cons_self _ _)
    have hmrest : ∀ e ∈ rest, isMerge e.1 = false :=
      fun e he => hmerge e (List.mem_cons_of_mem _ he)
    rw [mappingStructPython] at hclean ⊢
    cases hf : d.failure with
    | some msg =>
      rw [hf] at hclean
      exact absurd hclean.2 (by simp [hf])
    | none =>
      rw [hf] at hclean
      simp only [hm, Bool.false_eq_true, if_false] at hclean ⊢
      cases hk : unmarshalString k with
      | fatal msg =>
        rw [hk] at hclean
        exact absurd hclean.2 (by simp)
      | terror e =>
        rw [hk] at hclean
        have hkey : keyIs "version" k = false := by simp [keyIs, hm, hk]
        have hcount2 : (rest.filter (fun e => keyIs "version" e.1)).length ≤ 1 := by
          simpa [List.filter_cons, hkey] using hcount
        have := (ih _ hmrest hcount2 hclean).1
        exact absurd this.1 (by simp)
      | ok name =>
        rw [hk] at hclean
        simp only at hclean ⊢
        by_cases hn : name = "version"
        · have hkey : keyIs "version" k = true := by rw [keyIs_of_ok hm hk]; simp [hn]
          have hrest := keyIs_rest_false hkey hcount
          simp only [hn, if_true] at hclean ⊢
          cases hv : unmarshalString v with
          | fatal msg =>
            rw [hv] at hclean
            exact absurd hclean.2 (by simp)
          | terror e =>
            rw [hv] at hclean
            have := (mappingStructPython_skip rest _ hmrest hrest hclean).1
            exact absurd this.1 (by simp)
          | ok s =>
            rw [hv] at hclean
            simp only at hclean ⊢
            obtain ⟨hc, ho⟩ := mappingStructPython_skip rest _ hmrest hrest hclean
            refine ⟨⟨hc.1, hf⟩, ?_⟩
            rw [ho]
            simp [versionUnder, hkey, unmarshalString_ok hv]
        · have hkey : keyIs "version" k = false := by rw [keyIs_of_ok hm hk]; simp [hn]
          simp only [hn, if_false] at hclean ⊢
          have hcount2 : (rest.filter (fun e => keyIs "version" e.1)).length ≤ 1 := by
            simpa [List.filter_cons, hkey] using hcount
          obtain ⟨hc, ho⟩ := ih d hmrest hcount2 hclean
          refine ⟨hc, ?_⟩
          rw [ho]
          simp [versionUnder, hkey]

/-- Decoding a node into the `Python` field, when the run ends clean and the node has no
merge key and at most one `version` key: the run was clean before, and the target holds the
version found under that node. -/
theorem unmarshalPython_version (py : Node) (d : Decoding PythonSection)
    (hmerge : hasMergeKey py = false) (hcount : fieldCount "version" py ≤ 1)
    (hclean : (unmarshalPython py d).clean) :
    d.clean ∧ (unmarshalPython py d).out.Version = versionUnder d.out.Version py := by
  cases py with
  | null => exact ⟨hclean, rfl⟩
  | scalar v => exact absurd hclean.1 (by simp [unmarshalPython])
  | merge => exact absurd hclean.1 (by simp [unmarshalPython])
  | binary b =>
    cases b with
    | none => exact absurd hclean.2 (by simp [unmarshalPython])
    | some t => exact absurd hclean.1 (by simp [unmarshalPython])
  | sequence items => exact absurd hclean.1 (by simp [unmarshalPython])
  | mapping entries =>
    exact mappingStructPython_version entries d (isMerge_of_hasMergeKey hmerge) hcount hclean

/-- The two states around the decoding of the `Python` field are clean together. -/
theorem withPython_clean (d : Decoding Buildpack) (r : Decoding PythonSection) :
    (d.withPython r).clean ↔ r.clean := Iff.rfl

/-- Entries without a merge key and without a `python` key leave the target untouched, and a
run that ends clean over them started clean. -/
theorem mappingStructBuildpack_skip (entries : List (Node × Node)) :
    ∀ (d : Decoding Buildpack),
      (∀ e ∈ entries, isMerge e.1 = false) →
      (∀ e ∈ entries, keyIs "python" e.1 = false) →
      (mappingStructBuildpack entries d).clean →
      d.clean ∧ (mappingStructBuildpack entries d).out = d.out := by
  induction entries with
  | nil => intro d _ _ h; rw [mappingStructBuildpack] at h ⊢; exact ⟨h, rfl⟩
  | cons kv rest ih =>
    intro d hmerge hall hclean
    obtain ⟨k, v⟩ := kv
    have hm : isMerge k = false := hmerge (k, v) (List.mem_cons_self _ _)
    have hk0 : keyIs "python" k = false := hall (k, v) (List.mem_cons_self _ _)
    have hmrest : ∀ e ∈ rest, isMerge e.1 = false :=
      fun e he => hmerge e (List.mem_cons_of_mem _ he)
    have hrest : ∀ e ∈ rest, keyIs "python" e.1 = false :=
      fun e he => hall e (List.mem_cons_of_mem _ he)
    rw [mappingStructBuildpack] at hclean ⊢
    cases hf : d.failure with
    | some msg =>
      rw [hf] at hclean
      exact absurd hclean.2 (by simp [hf])
    | none =>
      rw [hf] at hclean
      simp only [hm, Bool.false_eq_true, if_false] at hclean ⊢
      cases hk : unmarshalString k with
      | fatal msg =>
        rw [hk] at hclean
        exact absurd hclean.2 (by simp)
      | terror e =>
        rw [hk] at hclean
        have := (ih _ hmrest hrest hclean).1
        exact absurd this.1 (by simp)
      | ok name =>
        rw [hk] at hclean
        simp only at hclean ⊢
        have hn : name ≠ "python" := by
          rw [keyIs_of_ok hm hk] at hk0
          simpa using hk0
        simp only [hn, if_false] at hclean ⊢
        exact ih d hmrest hrest hclean

/-- The outer loop, when it ends clean on a mapping with no merge key and at most one `python`
key, itself with no merge key and at most one `version` key: the run started clean and the
target holds the version found under `python`. -/
theorem mappingStructBuildpack_version (entries : List (Node × Node)) :
    ∀ (d : Decoding Buildpack),
      (∀ e ∈ entries, isMerge e.1 = false) →
      (entries.filter (fun e => keyIs "python" e.1)).length ≤ 1 →
      (∀ e, entries.find? (fun e => keyIs "python" e.1) = some e →
        hasMergeKey e.2 = false ∧ fieldCount "version" e.2 ≤ 1) →
      (mappingStructBuildpack entries d).clean →
      d.clean ∧ (mappingStructBuildpack entries d).out.Python.Version =
        match entries.find? (fun e => keyIs "python" e.1) with
        | none => d.out.Python.Version
        | some e => versionUnder d.out.Python.Version e.2 := by
  induction entries with
  | nil => intro d _ _ _ h; rw [mappingStructBuildpack] at h ⊢; exact ⟨h, rfl⟩
  | cons kv rest ih =>
    intro d hmerge hcount hver hclean
    obtain ⟨k, v⟩ := kv
    have hm : isMerge k = false := hmerge (k, v) (List.mem_cons_self _ _)
    have hmrest : ∀ e ∈ rest, isMerge e.1 = false :=
      fun e he => hmerge e (List.mem_cons_of_mem _ he)
    rw [mappingStructBuildpack] at hclean ⊢
    cases hf : d.failure with
    | some msg =>
      rw [hf] at hclean
      exact absurd hclean.2 (by simp [hf])
    | none =>
      rw [hf] at hclean
      simp only [hm, Bool.false_eq_true, if_false] at hclean ⊢
      cases hk : unmarshalString k with
      | fatal msg =>
        rw [hk] at hclean
        exact absurd hclean.2 (by simp)
      | terror e =>
        rw [hk] at hclean
        have hkey : keyIs "python" k = false := by simp [keyIs, hm, hk]
        have hcount2 : (rest.filter (fun e => keyIs "python" e.1)).length ≤ 1 := by
          simpa [List.filter_cons, hkey] using hcount
        have hver2 : ∀ e, rest.find? (fun e => keyIs "python" e.1) = some e →
            hasMergeKey e.2 = false ∧ fieldCount "version" e.2 ≤ 1 := by
          intro e he
          exact hver e (by simp [List.find?, hkey, he])
        have := (ih _ hmrest hcount2 hver2 hclean).1
        exact absurd this.1 (by simp)
      | ok name =>
        rw [hk] at hclean
        simp only at hclean ⊢
        by_cases hn : name = "python"
        · have hkey : keyIs "python" k = true := by rw [keyIs_of_ok hm hk]; simp [hn]
          have hrest := keyIs_rest_false hkey hcount
          simp only [hn, if_true] at hclean ⊢
          obtain ⟨hc, ho⟩ := mappingStructBuildpack_skip rest _ hmrest hrest hclean
          have hv1 := hver (k, v) (by simp [List.find?, hkey])
          obtain ⟨hc2, hval⟩ :=
            unmarshalPython_version v d.python hv1.1 hv1.2 ((withPython_clean d _).mp hc)
          refine ⟨hc2, ?_⟩
          rw [ho]
          simp only [List.find?, hkey]
          exact hval
        · have hkey : keyIs "python" k = false := by rw [keyIs_of_ok hm hk]; simp [hn]
          simp only [hn, if_false] at hclean ⊢
          have hcount2 : (rest.filter (fun e => keyIs "python" e.1)).length ≤ 1 := by
            simpa [List.filter_cons, hkey] using hcount
          have hver2 : ∀ e, rest.find? (fun e => keyIs "python" e.1) = some e →
              hasMergeKey e.2 = false ∧ fieldCount "version" e.2 ≤ 1 := by
            intro e he
            exact hver e (by simp [List.find?, hkey, he])
          obtain ⟨hc, ho⟩ := ih d hmrest hcount2 hver2 hclean
          refine ⟨hc, ?_⟩
          rw [ho]
          simp [List.find?, hkey]

/-- A document that decodes clean, with a single `python.version` field at most and no merge
key next to it, decodes to the string at `python.version`. -/
theorem unmarshalBuildpack_version (doc : Node)
    (hclean : (unmarshalBuildpack doc { out := {}, terrors := [], failure := none }).clean)
    (hsingle : singleFields doc = true) :
    (unmarshalBuildpack doc { out := {}, terrors := [], failure := none }).out.Python.Version =
      documentPythonVersion doc := by
  cases doc with
  | null => rfl
  | scalar v => exact absurd hclean.1 (by simp [unmarshalBuildpack])
  | merge => exact absurd hclean.1 (by simp [unmarshalBuildpack])
  | binary b =>
    cases b with
    | none => exact absurd hclean.2 (by simp [unmarshalBuildpack])
    | some t => exact absurd hclean.1 (by simp [unmarshalBuildpack])
  | sequence items => exact absurd hclean.1 (by simp [unmarshalBuildpack])
  | mapping entries =>
    simp only [singleFields, Bool.and_eq_true, decide_eq_true_eq, Bool.not_eq_true'] at hsingle
    obtain ⟨⟨hc, hmk⟩, hv⟩ := hsingle
    have hver : ∀ e, entries.find? (fun e => keyIs "python" e.1) = some e →
        hasMergeKey e.2 = false ∧ fieldCount "version" e.2 ≤ 1 := by
      intro e he
      simp only [lookupField, he, Option.map_some', Bool.and_eq_true, decide_eq_true_eq,
        Bool.not_eq_true'] at hv
      exact ⟨hv.2, hv.1⟩
    have h := (mappingStructBuildpack_version entries _ (isMerge_of_hasMergeKey hmk) hc hver
      hclean).2
    simp only [unmarshalBuildpack]
    rw [h]
    simp only [documentPythonVersion, lookupField]
    cases hf : entries.find? (fun e => keyIs "python" e.1) with
    | none => rfl
    | some e =>
      simp only [Option.map_some']
      cases e.2 with
      | null => rfl
      | scalar v => rfl
      | merge => rfl
      | binary b => rfl
      | sequence items => rfl
      | mapping ps =>
        simp only [versionUnder, lookupField]
        cases ps.find? (fun e => keyIs "version" e.1) <;> rfl

/-- The string at `python.version` is the string held by the field the parser reads. -/
theorem documentPythonVersion_eq (doc : Node) :
    documentPythonVersion doc =
      match pythonVersionField doc with
      | none => ""
      | some v => scalarText v := by
  unfold documentPythonVersion pythonVersionField
  cases lookupField "python" doc with
  | none => rfl
  | some py => simp only [Option.some_bind]

/-- What `ParseVersion` returns on a document that decodes without error and has a single
`python.version` field at most, with no merge key next to it. -/
theorem ParseVersion_document (fs : FileSystem) (path : String) (doc : Node)
    (hfile : fs path = PathState.present (FileContent.document doc))
    (hdec : (Decode (some (FileContent.document doc)) {}).2 = none)
    (hsingle : singleFields doc = true) :
    ParseVersion fs path = (documentPythonVersion doc, none) := by
  have hclean :
      (unmarshalBuildpack doc { out := {}, terrors := [], failure := none }).clean := by
    simp only [Decode] at hdec
    cases hf : (unmarshalBuildpack doc { out := {}, terrors := [], failure := none }).failure with
    | some msg => rw [hf] at hdec; simp at hdec
    | none =>
      rw [hf] at hdec
      by_cases ht : (unmarshalBuildpack doc { out := {}, terrors := [], failure := none }).terrors
          = []
      · exact ⟨ht, hf⟩
      · simp [ht] at hdec
  have hd : Decode (some (FileContent.document doc)) {} =
      ((unmarshalBuildpack doc { out := {}, terrors := [], failure := none }).out, none) := by
    simp only [Decode, hclean.2, hclean.1, if_true]
  simp [ParseVersion, osOpen, hfile, IsNotExist, hd,
    unmarshalBuildpack_version doc hclean hsingle]

/-- C4 (amended): for an existing file whose content decodes without error as a YAML document
in which `python` occurs at most once in the root mapping and `version` at most once under it,
neither mapping having a merge key, `ParseVersion` returns the nil error and the string at
`python.version`; that is the empty string when there is no `python` entry or no `version`
entry under it; and two such documents with the same `python.version` field give the same
result whatever their other keys. -/
theorem ParseVersion_reads_python_version (fs : FileSystem) (path : String) (doc : Node)
    (hfile : fs path = PathState.present (FileContent.document doc))
    (hdec : (Decode (some (FileContent.document doc)) {}).2 = none)
    (hsingle : singleFields doc = true) :
    ParseVersion fs path = (documentPythonVersion doc, none) ∧
    (lookupField "python" doc = none → ParseVersion fs path = ("", none)) ∧
    (∀ py, lookupField "python" doc = some py → lookupField "version" py = none →
      ParseVersion fs path = ("", none)) ∧
    (∀ (fs2 : FileSystem) (path2 : String) (doc2 : Node),
      fs2 path2 = PathState.present (FileContent.document doc2) →
      (Decode (some (FileContent.document doc2)) {}).2 = none →
      singleFields doc2 = true →
      pythonVersionField doc2 = pythonVersionField doc →
      ParseVersion fs2 path2 = ParseVersion fs path) := by
  have h := ParseVersion_document fs path doc hfile hdec hsingle
  refine ⟨h, ?_, ?_, ?_⟩
  · intro hp
    rw [h]
    simp [documentPythonVersion, hp]
  · intro py hp hv
    rw [h]
    simp [documentPythonVersion, hp, hv]
  · intro fs2 path2 doc2 hfile2 hdec2 hsingle2 hsame
    rw [h, ParseVersion_document fs2 path2 doc2 hfile2 hdec2 hsingle2,
      documentPythonVersion_eq, documentPythonVersion_eq, hsame]

/-- A `buildpack.yml` with `nodejs`, `python` and `cpython` sections: the version read is the
one under `python`, and it is the same as for the document holding that field alone. -/
theorem ParseVersion_reads_python_version_witness :
    ParseVersion (fun _ => PathState.present (FileContent.document mixedDocument))
        "buildpack.yml" = ("3.8.*", none) ∧
    ParseVersion (fun _ => PathState.present (FileContent.document (pythonDocument "3.8.*")))
        "buildpack.yml" =
      ParseVersion (fun _ => PathState.present (FileContent.document mixedDocument))
        "buildpack.yml" :=
  ⟨(ParseVersion_reads_python_version
      (fun _ => PathState.present (FileContent.document mixedDocument)) "buildpack.yml"
      mixedDocument rfl (by decide) (by decide)).1,
    (ParseVersion_reads_python_version
      (fun _ => PathState.present (FileContent.document mixedDocument)) "buildpack.yml"
      mixedDocument rfl (by decide) (by decide)).2.2.2
      (fun _ => PathState.present (FileContent.document (pythonDocument "3.8.*")))
      "buildpack.yml" (pythonDocument "3.8.*") rfl (by decide) (by decide) rfl⟩

/-- Without the restriction on repeated and merged keys the statement fails. A document whose
`python` and `version` keys are repeated decodes without error and `ParseVersion` returns
`3.9.4`, which is the string at `python.version` under none of the four ways of settling
repeated keys (first or last `python`, first or last `version`). A document whose
`python.version` is `3.8.2` and which ends with a merge key carrying `3.7.1` decodes without
error and `ParseVersion` returns `3.7.1`. -/
theorem ParseVersion_repeated_keys_counterexample :
    ((Decode (some (FileContent.document repeatedKeysDocument)) {}).2 = none ∧
      ParseVersion (fun _ => PathState.present (FileContent.document repeatedKeysDocument))
        "buildpack.yml" = ("3.9.4", none) ∧
      documentPythonVersion repeatedKeysDocument = "3.7.1" ∧
      documentPythonVersionBy false false repeatedKeysDocument = "3.7.1" ∧
      documentPythonVersionBy false true repeatedKeysDocument = "3.8.2" ∧
      documentPythonVersionBy true false repeatedKeysDocument = "" ∧
      documentPythonVersionBy true true repeatedKeysDocument = "") ∧
    ((Decode (some (FileContent.document mergedDocument)) {}).2 = none ∧
      ParseVersion (fun _ => PathState.present (FileContent.document mergedDocument))
        "buildpack.yml" = ("3.7.1", none) ∧
      documentPythonVersion mergedDocument = "3.8.2") := by
  refine ⟨⟨?_, ?_, ?_, ?_, ?_, ?_, ?_⟩, ?_, ?_, ?_⟩ <;> decide

/-! ## `PlanEntryResolver.Resolve` -/

/-- The scan skips a prefix of sources that request nothing. -/
theorem firstRequested_append (pre : List VersionSource) (s : VersionSource)
    (post : List VersionSource) (hpre : ∀ c ∈ pre, c.requestedValue = "")
    (hs : s.requestedValue ≠ "") : firstRequested (pre ++ s :: post) = some s := by
  induction pre with
  | nil => simp [firstRequested, hs]
  | cons c rest ih =>
    have hc : c.requestedValue = "" := hpre c (List.mem_cons_self _ _)
    have hrest : ∀ d ∈ rest, d.requestedValue = "" :=
      fun d hd => hpre d (List.mem_cons_of_mem _ hd)
    simp [firstRequested, hc, ih hrest]

/-- The scan finds nothing when no source requests anything. -/
theorem firstRequested_none (sources : List VersionSource)
    (hall : ∀ c ∈ sources, c.requestedValue = "") : firstRequested sources = none := by
  induction sources with
  | nil => rfl
  | cons c rest ih =>
    have hc : c.requestedValue = "" := hall c (List.mem_cons_self _ _)
    have hrest : ∀ d ∈ rest, d.requestedValue = "" :=
      fun d hd => hall d (List.mem_cons_of_mem _ hd)
    simp [firstRequested, hc, ih hrest]

/-- The resolver keeps the candidates as given. -/
theorem Resolve_candidates (sources : List VersionSource) :
    (Resolve sources).allCandidatesInPriorityOrder = sources := by
  unfold Resolve
  split <;> rfl

/-- C5: `Resolve` chooses the name and value of the first source, in the given order, whose
value is non-empty, whatever follows it; when every source is empty (the empty list too) it
yields the unconstrained sentinel, rendered `<unknown>`, with the empty value. It has no error
result and keeps the candidates as given. -/
theorem Resolve_chooses_first_requested (sources : List VersionSource) :
    (∀ pre s post, sources = pre ++ s :: post → (∀ c ∈ pre, c.requestedValue = "") →
      s.requestedValue ≠ "" →
      (Resolve sources).chosenSourceName = s.name ∧
        (Resolve sources).chosenValue = s.requestedValue) ∧
    ((∀ c ∈ sources, c.requestedValue = "") →
      (Resolve sources).chosenSourceName = unconstrainedSourceName ∧
        renderSourceName (Resolve sources).chosenSourceName = "<unknown>" ∧
        (Resolve sources).chosenValue = "") ∧
    (Resolve sources).allCandidatesInPriorityOrder = sources := by
  refine ⟨?_, ?_, ?_⟩
  · intro pre s post hsplit hpre hs
    subst hsplit
    simp [Resolve, firstRequested_append pre s post hpre hs]
  · intro hall
    simp [Resolve, firstRequested_none sources hall, renderSourceName]
  · exact Resolve_candidates sources

/-- The lower-ranked source does not matter once `buildpack.yml` requests a version, and the
sources of a project without `buildpack.yml` resolve to `<unknown>`. -/
theorem Resolve_chooses_first_requested_witness :
    ((Resolve [⟨"", ""⟩, ⟨"buildpack.yml", "3.9.1"⟩, ⟨"BP_CPYTHON_VERSION", "3.8.*"⟩]).chosenSourceName
        = "buildpack.yml" ∧
      (Resolve [⟨"", ""⟩, ⟨"buildpack.yml", "3.9.1"⟩, ⟨"BP_CPYTHON_VERSION", "3.8.*"⟩]).chosenValue
        = "3.9.1") ∧
    renderSourceName (Resolve [⟨"", ""⟩]).chosenSourceName = "<unknown>" :=
  ⟨(Resolve_chooses_first_requested
      [⟨"", ""⟩, ⟨"buildpack.yml", "3.9.1"⟩, ⟨"BP_CPYTHON_VERSION", "3.8.*"⟩]).1
      [⟨"", ""⟩] ⟨"buildpack.yml", "3.9.1"⟩ [⟨"BP_CPYTHON_VERSION", "3.8.*"⟩] rfl
      (by decide) (by decide),
    ((Resolve_chooses_first_requested [⟨"", ""⟩]).2.1 (by decide)).2.1⟩

/-! ## `LayerCacheDecision.Decide` -/

/-- C6: `Decide` returns `Reuse` exactly when the previous metadata is present and both its
version and its checksum equal those of the matched dependency, and `Rebuild` in every other
case: no previous metadata, another version, or another checksum. -/
theorem Decide_reuse_iff (matched : MatchedDependency) (previous : Option LayerMetadata) :
    (Decide matched previous = CacheDecision.Reuse ↔
      ∃ p, previous = some p ∧ p.version = matched.version ∧ p.checksum = matched.checksum) ∧
    (Decide matched previous = CacheDecision.Rebuild ↔
      (previous = none ∨
        ∃ p, previous = some p ∧
          (p.version ≠ matched.version ∨ p.checksum ≠ matched.checksum))) := by
  cases previous with
  | none => simp [Decide]
  | some p =>
    by_cases hv : p.version = matched.version <;>
      by_cases hc : p.checksum = matched.checksum <;> simp [Decide, hv, hc]

/-- Same version and checksum: reuse. -/
theorem Decide_reuse_iff_witness :
    Decide ⟨"3.10.2", "sha256:aa", "https://deps/3.10.2"⟩ (some ⟨"3.10.2", "sha256:aa", 7⟩) =
      CacheDecision.Reuse :=
  (Decide_reuse_iff ⟨"3.10.2", "sha256:aa", "https://deps/3.10.2"⟩
    (some ⟨"3.10.2", "sha256:aa", 7⟩)).1.2 ⟨⟨"3.10.2", "sha256:aa", 7⟩, rfl, rfl, rfl⟩

/-! ## The build orchestrator -/

/-- A reuse decision needs previous metadata with the version and checksum of the match. -/
theorem Decide_reuse_previous (matched : MatchedDependency) (previous : Option LayerMetadata)
    (h : Decide matched previous = CacheDecision.Reuse) :
    ∃ p, previous = some p ∧ p.version = matched.version ∧ p.checksum = matched.checksum := by
  cases previous with
  | none => simp [Decide] at h
  | some p =>
    by_cases hv : p.version = matched.version
    · by_cases hc : p.checksum = matched.checksum
      · exact ⟨p, rfl, hv, hc⟩
      · simp [Decide, hv, hc] at h
    · simp [Decide, hv] at h

/-- On a reuse decision nothing is installed and the previous metadata is what is persisted. -/
theorem installOrReuse_reuse (c : Collaborators) (matched : MatchedDependency)
    (previous : Option LayerMetadata) (h : Decide matched previous = CacheDecision.Reuse) :
    ∃ p, previous = some p ∧
      installOrReuse c matched previous = BuildResult.Done CacheDecision.Reuse p := by
  obtain ⟨p, hp, hv, hc⟩ := Decide_reuse_previous matched previous h
  refine ⟨p, hp, ?_⟩
  subst hp
  obtain ⟨pv, pc, pb⟩ := p
  simp only at hv hc
  subst hv hc
  simp [installOrReuse, Decide]

/-- On a rebuild decision the result is decided by the installation, and the metadata
persisted carries the time of the clock. -/
theorem installOrReuse_rebuild (c : Collaborators) (matched : MatchedDependency)
    (previous : Option LayerMetadata) (h : Decide matched previous = CacheDecision.Rebuild) :
    installOrReuse c matched previous =
      if c.install matched then
        BuildResult.Done CacheDecision.Rebuild
          { version := matched.version, checksum := matched.checksum, builtAt := c.now }
      else BuildResult.InstallFailed := by
  unfold installOrReuse
  rw [h]

/-- C7: in a build whose cache decision is `Reuse`, the metadata persisted at the end is the
previous metadata, `builtAt`, version and checksum unchanged; in a build whose decision is
`Rebuild` and whose installation succeeds, the persisted `builtAt` is the time of the clock,
whatever the previous value was. Both builds do reach the persisted state. -/
theorem Build_builtAt (c : Collaborators) (previous : Option LayerMetadata)
    (sources : List VersionSource) (matched : MatchedDependency)
    (hsources : collectSources c.sources = Except.ok sources)
    (hmatch : c.refinery (Resolve sources) = some matched) :
    (Decide matched previous = CacheDecision.Reuse →
      ∃ p, previous = some p ∧ Build c previous = BuildResult.Done CacheDecision.Reuse p ∧
        persistedAfter previous (Build c previous) = some p) ∧
    (Decide matched previous = CacheDecision.Rebuild → c.install matched = true →
      Build c previous = BuildResult.Done CacheDecision.Rebuild
          { version := matched.version, checksum := matched.checksum, builtAt := c.now } ∧
        (persistedAfter previous (Build c previous)).map (fun m => m.builtAt) = some c.now) ∧
    (∀ d m, Build c previous = BuildResult.Done d m →
      (d = CacheDecision.Reuse → previous = some m) ∧
        (d = CacheDecision.Rebuild → m.builtAt = c.now)) := by
  have hb : Build c previous = installOrReuse c matched previous := by
    simp [Build, hsources, hmatch]
  refine ⟨?_, ?_, ?_⟩
  · intro h
    obtain ⟨p, hp, hr⟩ := installOrReuse_reuse c matched previous h
    exact ⟨p, hp, by rw [hb, hr], by rw [hb, hr]; rfl⟩
  · intro h hi
    have hr := installOrReuse_rebuild c matched previous h
    rw [hi] at hr
    simp only [if_true] at hr
    exact ⟨by rw [hb, hr], by rw [hb, hr]; rfl⟩
  · intro d m hdone
    rw [hb] at hdone
    cases hdec : Decide matched previous with
    | Reuse =>
      obtain ⟨p, hp, hr⟩ := installOrReuse_reuse c matched previous hdec
      rw [hr] at hdone
      injection hdone with hd hm
      subst hd hm
      exact ⟨fun _ => hp, fun h => by cases h⟩
    | Rebuild =>
      have hr := installOrReuse_rebuild c matched previous hdec
      rw [hr] at hdone
      by_cases hi : c.install matched = true
      · rw [if_pos hi] at hdone
        injection hdone with hd hm
        subst hd hm
        exact ⟨fun h => (by cases h), fun _ => rfl⟩
      · rw [if_neg hi] at hdone
        cases hdone

/-- Scenario A of the spec, second run: the layer built at time 7 is reused at time 9 and
keeps `builtAt = 7`; after the checksum changed it is rebuilt and stamped 9. -/
theorem Build_builtAt_witness :
    Build (defaultBuild true 9) (some ⟨"3.10.2", "sha256:aa", 7⟩) =
      BuildResult.Done CacheDecision.Reuse ⟨"3.10.2", "sha256:aa", 7⟩ ∧
    Build (defaultBuild true 9) (some ⟨"3.10.2", "sha256:bb", 7⟩) =
      BuildResult.Done CacheDecision.Rebuild ⟨"3.10.2", "sha256:aa", 9⟩ :=
  ⟨by
      obtain ⟨p, hp, hb, _⟩ :=
        (Build_builtAt (defaultBuild true 9) (some ⟨"3.10.2", "sha256:aa", 7⟩) [⟨"", ""⟩]
          ⟨"3.10.2", "sha256:aa", "https://deps/3.10.2"⟩ rfl rfl).1 (by decide)
      cases hp
      exact hb,
    ((Build_builtAt (defaultBuild true 9) (some ⟨"3.10.2", "sha256:bb", 7⟩) [⟨"", ""⟩]
      ⟨"3.10.2", "sha256:aa", "https://deps/3.10.2"⟩ rfl rfl).2.1 (by decide) rfl).1⟩

/-! ## The candidate report -/

/-- A run of `n` spaces has length `n`. -/
theorem spaces_length (n : Nat) : (spaces n).length = n := by
  simp [spaces, String.length]

/-- Padding a name that fits gives exactly the width. -/
theorem padRight_length (s : String) (width : Nat) (h : s.length ≤ width) :
    (padRight s width).length = width := by
  simp only [padRight, String.length_append, spaces_length]
  omega

/-- No rendered source name is longer than the column. -/
theorem length_le_columnWidth (sources : List VersionSource) :
    ∀ s ∈ sources, (renderSourceName s.name).length ≤ columnWidth sources := by
  induction sources with
  | nil => intro s hs; cases hs
  | cons c rest ih =>
    intro s hs
    simp only [columnWidth]
    rcases List.mem_cons.mp hs with h | h
    · subst h; exact le_max_left _ _
    · exact le_trans (ih s h) (le_max_right _ _)

/-- The column is as wide as some rendered source name. -/
theorem columnWidth_attained (sources : List VersionSource) (hne : sources ≠ []) :
    ∃ s ∈ sources, (renderSourceName s.name).length = columnWidth sources := by
  induction sources with
  | nil => exact absurd rfl hne
  | cons c rest ih =>
    simp only [columnWidth]
    by_cases hle : columnWidth rest ≤ (renderSourceName c.name).length
    · exact ⟨c, List.mem_cons_self _ _, by rw [max_eq_left hle]⟩
    · have hlt : (renderSourceName c.name).length ≤ columnWidth rest := by omega
      have hrest : rest ≠ [] := by
        intro hnil
        subst hnil
        simp [columnWidth] at hle
      obtain ⟨s, hs, hlen⟩ := ih hrest
      exact ⟨s, List.mem_cons_of_mem _ hs, by rw [max_eq_right hlt, hlen]⟩

/-- C8: the report has one line per source, in input order, empty values included; each line
is the rendered source name padded with spaces to the length of the longest rendered name,
then ` -> `, then the value in double quotes; a blank line and the line
`Selected CPython version (using <source>): <version>` follow. -/
theorem candidateReport_layout (sources : List VersionSource) (version : String) :
    (candidateReport (Resolve sources) version).length = sources.length + 2 ∧
    (∀ i, i < sources.length →
      (candidateReport (Resolve sources) version)[i]? =
        (sources[i]?).map (fun s =>
          (padRight (renderSourceName s.name) (columnWidth sources) ++ " -> ") ++
            (("\"" ++ s.requestedValue) ++ "\""))) ∧
    (candidateReport (Resolve sources) version)[sources.length]? = some "" ∧
    (candidateReport (Resolve sources) version)[sources.length + 1]? =
      some (("Selected CPython version (using " ++
        renderSourceName (Resolve sources).chosenSourceName ++ "): ") ++ version) ∧
    (∀ s ∈ sources,
      padRight (renderSourceName s.name) (columnWidth sources) =
          renderSourceName s.name ++
            spaces (columnWidth sources - (renderSourceName s.name).length) ∧
        (padRight (renderSourceName s.name) (columnWidth sources)).length =
          columnWidth sources) ∧
    (sources ≠ [] → ∃ s ∈ sources, (renderSourceName s.name).length = columnWidth sources) := by
  have hc : (Resolve sources).allCandidatesInPriorityOrder = sources :=
    (Resolve_candidates sources)
  refine ⟨?_, ?_, ?_, ?_, ?_, columnWidth_attained sources⟩
  · simp [candidateReport, hc]
  · intro i hi
    simp only [candidateReport, hc]
    rw [List.getElem?_append_left (by simpa using hi), List.getElem?_map]
    rfl
  · simp only [candidateReport, hc]
    rw [List.getElem?_append_right (by simp)]
    simp
  · simp only [candidateReport, hc]
    rw [List.getElem?_append_right (by simp)]
    simp [selectedLine]
  · intro s hs
    exact ⟨rfl, padRight_length _ _ (length_le_columnWidth sources s hs)⟩

/-- The two candidate lines and the selected line of the rebuild test, and the single line of
the reuse test. -/
theorem candidateReport_layout_witness :
    (candidateReport (Resolve [⟨"buildpack.yml", "3.9.1"⟩, ⟨"", ""⟩]) "3.9.1")[0]? =
      some "buildpack.yml -> \"3.9.1\"" ∧
    (candidateReport (Resolve [⟨"buildpack.yml", "3.9.1"⟩, ⟨"", ""⟩]) "3.9.1")[1]? =
      some "<unknown>     -> \"\"" ∧
    (candidateReport (Resolve [⟨"buildpack.yml", "3.9.1"⟩, ⟨"", ""⟩]) "3.9.1")[3]? =
      some "Selected CPython version (using buildpack.yml): 3.9.1" ∧
    (candidateReport (Resolve [⟨"", ""⟩]) "3.10.2")[0]? = some "<unknown> -> \"\"" :=
  ⟨(candidateReport_layout [⟨"buildpack.yml", "3.9.1"⟩, ⟨"", ""⟩] "3.9.1").2.1 0 (by decide),
    (candidateReport_layout [⟨"buildpack.yml", "3.9.1"⟩, ⟨"", ""⟩] "3.9.1").2.1 1 (by decide),
    (candidateReport_layout [⟨"buildpack.yml", "3.9.1"⟩, ⟨"", ""⟩] "3.9.1").2.2.2.1,
    (candidateReport_layout [⟨"", ""⟩] "3.10.2").2.1 0 (by decide)⟩

end PythonRuntime
